import Mathlib

/-!
Verification of the SDRcausal dimension-reduction core.

The repository ships the header `src/C_gsl_imp_dr.h`: the parameter block
`ImpParams` and the entry-point signature of `C_imp_dim_red` below are
translated directly from that header.  The numerical core itself (kernel
evaluator, objective builder, parallel aggregator, optimizer driver) is not
part of the sources and is modelled from the specification; every such
definition carries a doc comment starting with "Modelled from the spec:".

Modelling conventions: C `int` is `Int`; C `double` values crossing the call
boundary are rationals (`ℚ`); internal numerics are real numbers (`ℝ`);
pointers to arrays are lists; a possibly non-finite floating-point result is
an `Option` that is `none` exactly when the computation broke down.
-/

/-- The parameter block, translated field by field (same names, same order)
from `struct ImpParams` in `src/C_gsl_imp_dr.h` lines 25-44. -/
structure ImpParams where
  n : Int
  p : Int
  d : Int
  n_threads : Int
  kernel_spec : Int
  treated : List Int
  b0 : ℚ
  h0 : ℚ
  h11 : ℚ
  h12 : ℚ
  h13 : ℚ
  h14 : ℚ
  gauss_cutoff : ℚ
  x : List ℚ
  y : List ℚ

/-- The `EstimationParameters` data model exactly as the specification's
section 3 lists it (n, p, d, n_threads, kernel_spec, treated, the five
bandwidths, gauss_cutoff, x, y).  This definition follows the spec's words,
for comparison with the source struct `ImpParams`; note it has no `b0`. -/
structure EstimationParameters where
  n : Int
  p : Int
  d : Int
  n_threads : Int
  kernel_spec : Int
  treated : List Int
  h0 : ℚ
  h11 : ℚ
  h12 : ℚ
  h13 : ℚ
  h14 : ℚ
  gauss_cutoff : ℚ
  x : List ℚ
  y : List ℚ

/-- Forget the extra scalar `b0`, keeping every field the spec's data model
lists. -/
def toEstimationParameters (ip : ImpParams) : EstimationParameters :=
  ⟨ip.n, ip.p, ip.d, ip.n_threads, ip.kernel_spec, ip.treated,
   ip.h0, ip.h11, ip.h12, ip.h13, ip.h14, ip.gauss_cutoff, ip.x, ip.y⟩

/-- The plain numeric arguments of one `C_imp_dim_red` call, in the order of
the header's signature (scalars first, then the four input buffers). -/
structure RawArgs where
  n : Int
  p : Int
  d : Int
  kernel_spec : Int
  n_threads : Int
  h0 : ℚ
  h11 : ℚ
  h12 : ℚ
  h13 : ℚ
  h14 : ℚ
  gauss_cutoff : ℚ
  x : List ℚ
  beta_guess : List ℚ
  y : List ℚ
  treated : List Int

/-- Modelled from the spec: the eager validity check run at parameter-block
construction (spec section 7, `InvalidArgument`): positive dimensions with
`d ≤ p`, positive thread count, buffer lengths matching `n*p`, `p*d` and `n`,
positive bandwidths and cutoff, and `treated` values in {0,1}. -/
def validArgs (a : RawArgs) : Prop :=
  0 < a.n ∧ 0 < a.p ∧ 0 < a.d ∧ a.d ≤ a.p ∧ 0 < a.n_threads ∧
  a.x.length = a.n.toNat * a.p.toNat ∧
  a.beta_guess.length = a.p.toNat * a.d.toNat ∧
  a.y.length = a.n.toNat ∧ a.treated.length = a.n.toNat ∧
  0 < a.h0 ∧ 0 < a.h11 ∧ 0 < a.h12 ∧ 0 < a.h13 ∧ 0 < a.h14 ∧
  0 < a.gauss_cutoff ∧ (∀ t ∈ a.treated, t = 0 ∨ t = 1)

instance validArgsDecidable (a : RawArgs) : Decidable (validArgs a) := by
  unfold validArgs; exact inferInstance

/-- The invalid-input conditions exactly as the claim lists them:
a non-positive dimension, a mismatched buffer length, a non-positive
bandwidth, or a `treated` entry outside {0,1}. -/
def badInput (a : RawArgs) : Prop :=
  a.n ≤ 0 ∨ a.p ≤ 0 ∨ a.d ≤ 0 ∨
  a.x.length ≠ a.n.toNat * a.p.toNat ∨
  a.beta_guess.length ≠ a.p.toNat * a.d.toNat ∨
  a.y.length ≠ a.n.toNat ∨ a.treated.length ≠ a.n.toNat ∨
  a.h0 ≤ 0 ∨ a.h11 ≤ 0 ∨ a.h12 ≤ 0 ∨ a.h13 ≤ 0 ∨ a.h14 ≤ 0 ∨
  (∃ t ∈ a.treated, t ≠ 0 ∧ t ≠ 1)

instance badInputDecidable (a : RawArgs) : Decidable (badInput a) := by
  unfold badInput; exact inferInstance

/-- The construction-time error of the spec's error taxonomy. -/
inductive CoreError where
  | invalidArgument : CoreError
deriving DecidableEq

/-- Modelled from the spec: parameter-block construction.  The checks run
eagerly; on failure the block is never built and `InvalidArgument` is
reported.  The header's entry point receives no `b0`, so the struct field
`b0` (absent from the spec's data model) is populated internally; its value
is not documented and is modelled as 0. -/
def mkImpParams (a : RawArgs) : Except CoreError ImpParams :=
  if validArgs a then
    Except.ok ⟨a.n, a.p, a.d, a.n_threads, a.kernel_spec, a.treated, 0,
               a.h0, a.h11, a.h12, a.h13, a.h14, a.gauss_cutoff, a.x, a.y⟩
  else Except.error CoreError.invalidArgument

/-- The spec's invariants on an `EstimationParameters`-equivalent block
(spec section 3), stated on the source struct. -/
def ImpParamsValid (P : ImpParams) : Prop :=
  0 < P.n ∧ 0 < P.p ∧ 0 < P.d ∧ P.d ≤ P.p ∧ 0 < P.n_threads ∧
  P.x.length = P.n.toNat * P.p.toNat ∧
  P.y.length = P.n.toNat ∧ P.treated.length = P.n.toNat ∧
  0 < P.h0 ∧ 0 < P.h11 ∧ 0 < P.h12 ∧ 0 < P.h13 ∧ 0 < P.h14 ∧
  0 < P.gauss_cutoff ∧ (∀ t ∈ P.treated, t = 0 ∨ t = 1)

instance impParamsValidDecidable (P : ImpParams) : Decidable (ImpParamsValid P) := by
  unfold ImpParamsValid; exact inferInstance

/-- Modelled from the spec: the optimizer driver's terminal states
(spec section 4.4 state machine). -/
inductive OptStatus where
  | converged : OptStatus
  | maxIterReached : OptStatus
  | failed : OptStatus
deriving DecidableEq

/-- Modelled from the spec: only `FAILED` is an error; `MAX_ITER_REACHED`
is an approximate answer with a status flag. -/
def optStatusIsError : OptStatus → Bool
  | OptStatus.failed => true
  | _ => false

/-- Modelled from the spec: the status reported at the core's boundary
(success / invalid argument / numerical breakdown / max iterations). -/
inductive CoreStatus where
  | success : CoreStatus
  | invalidArgument : CoreStatus
  | numericalBreakdown : CoreStatus
  | maxIterReached : CoreStatus
deriving DecidableEq

/-- Map a driver terminal state to the boundary status. -/
def statusOfOpt : OptStatus → CoreStatus
  | OptStatus.converged => CoreStatus.success
  | OptStatus.maxIterReached => CoreStatus.maxIterReached
  | OptStatus.failed => CoreStatus.numericalBreakdown

/-- Result of one optimizer-driver run: the final iterate, the terminal
state, and how many objective evaluations ran. -/
structure DriverResult (α : Type) where
  beta : ℕ → α
  status : OptStatus
  iters : ℕ

/-- Result of one core estimation run. -/
structure CoreResult where
  beta : ℕ → ℝ
  status : CoreStatus
  iters : ℕ

/-- Modelled from the spec: a worker's sequential accumulation over its list
of observation indices.  A `none` contribution (non-finite value) aborts the
whole accumulation instead of entering the sum. -/
def optSum {A : Type} [AddCommMonoid A] (f : ℕ → Option A) : List ℕ → Option A
  | [] => some 0
  | i :: is => Option.bind (f i) fun a => Option.bind (optSum f is) fun s => some (a + s)

/-- Modelled from the spec: the worker count is clamped to `[1, n]`
(spec section 4.3). -/
def effThreads (n nT : ℕ) : ℕ := max 1 (min nT n)

/-- Modelled from the spec: contiguous partition of `n` observations over
`T` workers; worker `t` handles indices `[t*n/T, (t+1)*n/T)`. -/
def blockStart (n T t : ℕ) : ℕ := t * n / T

/-- Modelled from the spec: worker `t`'s private accumulation over its
contiguous block. -/
def blockAcc {A : Type} [AddCommMonoid A] (n T : ℕ) (f : ℕ → Option A) (t : ℕ) : Option A :=
  optSum f (List.range' (blockStart n T t) (blockStart n T (t + 1) - blockStart n T t))

/-- Modelled from the spec: the parallel aggregator.  Each worker owns a
private accumulator; after the barrier the partial results are combined in
thread-index order; a failed worker aborts the evaluation. -/
def parallelAggregate {A : Type} [AddCommMonoid A] (n nT : ℕ) (f : ℕ → Option A) : Option A :=
  optSum (blockAcc n (effThreads n nT) f) (List.range (effThreads n nT))

/-- Squared euclidean norm of the first `m` gradient entries. -/
def gradNorm2 {α : Type} [LinearOrderedField α] (m : ℕ) (g : ℕ → α) : α :=
  ∑ idx ∈ Finset.range m, g idx ^ 2

/-- Modelled from the spec: a derivative-based update rule (gradient step). -/
def stepUpdate {α : Type} [LinearOrderedField α] (step : α) (beta g : ℕ → α) : ℕ → α :=
  fun idx => beta idx - step * g idx

/-- Keep the best-loss iterate seen so far. -/
def updateBest {α : Type} [LinearOrderedField α] (best : Option ((ℕ → α) × α))
    (beta : ℕ → α) (l : α) : Option ((ℕ → α) × α) :=
  match best with
  | none => some (beta, l)
  | some (b0, l0) => if l < l0 then some (beta, l) else some (b0, l0)

/-- The iterate recorded as best, or the current one when nothing was
evaluated yet. -/
def bestPoint {α : Type} [LinearOrderedField α] (best : Option ((ℕ → α) × α))
    (beta : ℕ → α) : ℕ → α :=
  match best with
  | none => beta
  | some (b0, _) => b0

/-- Modelled from the spec: the optimizer driver (spec section 4.4).
Derivative-based minimization from `beta`: each iteration evaluates the
objective; a non-finite evaluation (`none`) terminates with `failed`;
a gradient norm below tolerance terminates with `converged`; exhausting the
iteration budget returns the best-loss iterate seen with `maxIterReached`. -/
def drive {α : Type} [LinearOrderedField α] (obj : (ℕ → α) → Option (α × (ℕ → α)))
    (m : ℕ) (tol step : α) : ℕ → (ℕ → α) → Option ((ℕ → α) × α) → DriverResult α
  | 0, beta, best => ⟨bestPoint best beta, OptStatus.maxIterReached, 0⟩
  | k + 1, beta, best =>
    match obj beta with
    | none => ⟨beta, OptStatus.failed, 1⟩
    | some (l, g) =>
      if gradNorm2 m g ≤ tol then ⟨beta, OptStatus.converged, 1⟩
      else
        let r := drive obj m tol step k (stepUpdate step beta g) (updateBest best beta l)
        ⟨r.beta, r.status, r.iters + 1⟩

/-- Specification-side companion of `drive`: the successfully evaluated
iterates with their losses, in visit order. -/
def evals {α : Type} [LinearOrderedField α] (obj : (ℕ → α) → Option (α × (ℕ → α)))
    (m : ℕ) (tol step : α) : ℕ → (ℕ → α) → List ((ℕ → α) × α)
  | 0, _ => []
  | k + 1, beta =>
    match obj beta with
    | none => []
    | some (l, g) =>
      (beta, l) :: (if gradNorm2 m g ≤ tol then []
                    else evals obj m tol step k (stepUpdate step beta g))

/-- Specification-side companion of `drive`: every iterate at which the
driver requested an objective evaluation, in visit order. -/
def visited {α : Type} [LinearOrderedField α] (obj : (ℕ → α) → Option (α × (ℕ → α)))
    (m : ℕ) (tol step : α) : ℕ → (ℕ → α) → List (ℕ → α)
  | 0, _ => []
  | k + 1, beta =>
    beta :: (match obj beta with
             | none => []
             | some (l, g) =>
               if gradNorm2 m g ≤ tol then []
               else visited obj m tol step k (stepUpdate step beta g))

noncomputable section

/-- Modelled from the spec: the documented stabilization epsilon guarding
divide-by-near-zero in the local averages (spec section 4.2). -/
def epsStab : ℝ := 1 / 1000000000000

/-- Modelled from the spec: Gaussian kernel with hard cutoff — a distance
strictly beyond `gauss_cutoff` gives weight exactly 0; otherwise the
normalized Gaussian shape with value 1 at distance 0. -/
def gaussKernel (u h cutoff : ℝ) : ℝ :=
  if cutoff < |u| then 0 else Real.exp (-(u / h) ^ 2 / 2)

/-- Modelled from the spec: the alternative kernel family (Epanechnikov). -/
def epanechnikovKernel (u h : ℝ) : ℝ :=
  if |u / h| ≤ 1 then 3 / 4 * (1 - (u / h) ^ 2) else 0

/-- The integer code selecting the Gaussian family; the header documents
`kernel_spec` only as "which kernel function to be used", the code value is
modelled as 1. -/
def gaussianSpecCode : Int := 1

/-- Modelled from the spec: the kernel evaluator, a pure function
dispatching on `kernel_spec`. -/
def kernelEval (spec : Int) (u h cutoff : ℝ) : ℝ :=
  if spec = gaussianSpecCode then gaussKernel u h cutoff else epanechnikovKernel u h

/-- Modelled from the spec: derivative of the kernel shape in its distance
argument (used by the chain rule in the gradient). -/
def kernelDeriv (spec : Int) (u h cutoff : ℝ) : ℝ :=
  if spec = gaussianSpecCode then
    (if cutoff < |u| then 0 else -(u / h ^ 2) * Real.exp (-(u / h) ^ 2 / 2))
  else (if |u / h| ≤ 1 then -(3 / 2) * u / h ^ 2 else 0)

/-- Covariate matrix entry `x[i,j]`, row-major as fixed by this model. -/
def xE (P : ImpParams) (i j : ℕ) : ℝ := ((P.x.getD (i * P.p.toNat + j) 0 : ℚ) : ℝ)

/-- Response entry `y[i]`. -/
def yE (P : ImpParams) (i : ℕ) : ℝ := ((P.y.getD i 0 : ℚ) : ℝ)

/-- Treatment indicator `treated[i]`. -/
def tE (P : ImpParams) (i : ℕ) : Int := P.treated.getD i 0

/-- Modelled from the spec: projection of each covariate row onto the
candidate direction, `(x β)[i,k] = Σ_j x[i,j] β[j,k]`, with `β` stored
row-major as a flat `p·d` vector. -/
def projMat (P : ImpParams) (beta : ℕ → ℝ) (i k : ℕ) : ℝ :=
  ∑ j ∈ Finset.range P.p.toNat, xE P i j * beta (j * P.d.toNat + k)

/-- Squared distance of two projected observations in the `dd`-dimensional
projected representation `pr`. -/
def dist2P (P : ImpParams) (dd : ℕ) (pr : ℕ → ℕ → ℝ) (i j : ℕ) : ℝ :=
  ∑ k ∈ Finset.range dd, (pr i k - pr j k) ^ 2

/-- Kernel weight between projected observations `i` and `j` at bandwidth
`hq`. -/
def wP (P : ImpParams) (hq : ℚ) (dd : ℕ) (pr : ℕ → ℕ → ℝ) (i j : ℕ) : ℝ :=
  kernelEval P.kernel_spec (dist2P P dd pr i j) (hq : ℝ) (P.gauss_cutoff : ℝ)

/-- Modelled from the spec: kernel-weighted response sum over the treated
group (bandwidth `h11`). -/
def S1P (P : ImpParams) (dd : ℕ) (pr : ℕ → ℕ → ℝ) (i : ℕ) : ℝ :=
  ∑ j ∈ Finset.range P.n.toNat, if tE P j = 1 then wP P P.h11 dd pr i j * yE P j else 0

/-- Modelled from the spec: stabilized kernel weight sum over the treated
group. -/
def W1P (P : ImpParams) (dd : ℕ) (pr : ℕ → ℕ → ℝ) (i : ℕ) : ℝ :=
  epsStab + ∑ j ∈ Finset.range P.n.toNat, if tE P j = 1 then wP P P.h11 dd pr i j else 0

/-- Kernel-weighted local average response of the treated group at
observation `i`. -/
def m1P (P : ImpParams) (dd : ℕ) (pr : ℕ → ℕ → ℝ) (i : ℕ) : ℝ :=
  S1P P dd pr i / W1P P dd pr i

/-- Modelled from the spec: kernel-weighted response sum over the control
group (bandwidth `h12`). -/
def S0P (P : ImpParams) (dd : ℕ) (pr : ℕ → ℕ → ℝ) (i : ℕ) : ℝ :=
  ∑ j ∈ Finset.range P.n.toNat, if tE P j = 0 then wP P P.h12 dd pr i j * yE P j else 0

/-- Modelled from the spec: stabilized kernel weight sum over the control
group. -/
def W0P (P : ImpParams) (dd : ℕ) (pr : ℕ → ℕ → ℝ) (i : ℕ) : ℝ :=
  epsStab + ∑ j ∈ Finset.range P.n.toNat, if tE P j = 0 then wP P P.h12 dd pr i j else 0

/-- Kernel-weighted local average response of the control group at
observation `i`. -/
def m0P (P : ImpParams) (dd : ℕ) (pr : ℕ → ℕ → ℝ) (i : ℕ) : ℝ :=
  S0P P dd pr i / W0P P dd pr i

/-- Modelled from the spec: the aggregate least-squares loss of treated
versus control local averages, as a function of a projected representation.
The exact weighting scheme beyond the spec's words (h11 for within-treated,
h12 for within-control smoothing; h13, h14, h0 and b0 have no further
documented role) is deliberately the minimal faithful reading. -/
def lossOnProjected (P : ImpParams) (dd : ℕ) (pr : ℕ → ℕ → ℝ) : ℝ :=
  ∑ i ∈ Finset.range P.n.toNat, (m1P P dd pr i - m0P P dd pr i) ^ 2

/-- The objective builder's loss for a candidate direction `beta`. -/
def objectiveLoss (P : ImpParams) (beta : ℕ → ℝ) : ℝ :=
  lossOnProjected P P.d.toNat (projMat P beta)

/-- The same loss computed directly on the raw covariates (no projection). -/
def lossRaw (P : ImpParams) : ℝ := lossOnProjected P P.p.toNat (xE P)

/-- The flattened `p × p` identity direction (row-major), the
identity-equivalent candidate for `d = p`. -/
def idBeta (p : ℕ) : ℕ → ℝ := fun idx => if idx / p = idx % p then 1 else 0

/-- Chain-rule derivative of the squared projected distance with respect to
flat direction entry `idx = a*dd + k`, i.e. `(a, k) = (idx / dd, idx % dd)`. -/
def dDist2P (P : ImpParams) (dd : ℕ) (pr : ℕ → ℕ → ℝ) (i j idx : ℕ) : ℝ :=
  2 * (pr i (idx % dd) - pr j (idx % dd)) * (xE P i (idx / dd) - xE P j (idx / dd))

/-- Chain-rule derivative of a kernel weight in a flat direction entry. -/
def dwP (P : ImpParams) (hq : ℚ) (dd : ℕ) (pr : ℕ → ℕ → ℝ) (i j idx : ℕ) : ℝ :=
  kernelDeriv P.kernel_spec (dist2P P dd pr i j) (hq : ℝ) (P.gauss_cutoff : ℝ) *
    dDist2P P dd pr i j idx

/-- Derivative of `S1P`. -/
def dS1P (P : ImpParams) (dd : ℕ) (pr : ℕ → ℕ → ℝ) (i idx : ℕ) : ℝ :=
  ∑ j ∈ Finset.range P.n.toNat, if tE P j = 1 then dwP P P.h11 dd pr i j idx * yE P j else 0

/-- Derivative of `W1P`. -/
def dW1P (P : ImpParams) (dd : ℕ) (pr : ℕ → ℕ → ℝ) (i idx : ℕ) : ℝ :=
  ∑ j ∈ Finset.range P.n.toNat, if tE P j = 1 then dwP P P.h11 dd pr i j idx else 0

/-- Quotient-rule derivative of the treated local average. -/
def dm1P (P : ImpParams) (dd : ℕ) (pr : ℕ → ℕ → ℝ) (i idx : ℕ) : ℝ :=
  (dS1P P dd pr i idx * W1P P dd pr i - S1P P dd pr i * dW1P P dd pr i idx) /
    W1P P dd pr i ^ 2

/-- Derivative of `S0P`. -/
def dS0P (P : ImpParams) (dd : ℕ) (pr : ℕ → ℕ → ℝ) (i idx : ℕ) : ℝ :=
  ∑ j ∈ Finset.range P.n.toNat, if tE P j = 0 then dwP P P.h12 dd pr i j idx * yE P j else 0

/-- Derivative of `W0P`. -/
def dW0P (P : ImpParams) (dd : ℕ) (pr : ℕ → ℕ → ℝ) (i idx : ℕ) : ℝ :=
  ∑ j ∈ Finset.range P.n.toNat, if tE P j = 0 then dwP P P.h12 dd pr i j idx else 0

/-- Quotient-rule derivative of the control local average. -/
def dm0P (P : ImpParams) (dd : ℕ) (pr : ℕ → ℕ → ℝ) (i idx : ℕ) : ℝ :=
  (dS0P P dd pr i idx * W0P P dd pr i - S0P P dd pr i * dW0P P dd pr i idx) /
    W0P P dd pr i ^ 2

/-- Observation `i`'s loss contribution, `(m1(i) - m0(i))²`. -/
def lossContrib (P : ImpParams) (beta : ℕ → ℝ) (i : ℕ) : ℝ :=
  (m1P P P.d.toNat (projMat P beta) i - m0P P P.d.toNat (projMat P beta) i) ^ 2

/-- Observation `i`'s gradient contribution, by the chain rule through the
projection and the kernel weights. -/
def gradContrib (P : ImpParams) (beta : ℕ → ℝ) (i : ℕ) : ℕ → ℝ := fun idx =>
  2 * (m1P P P.d.toNat (projMat P beta) i - m0P P P.d.toNat (projMat P beta) i) *
    (dm1P P P.d.toNat (projMat P beta) i idx - dm0P P P.d.toNat (projMat P beta) i idx)

/-- Modelled from the spec: one observation's contribution to the Reduction
Result; the epsilon-stabilized averages keep it finite, hence always `some`. -/
def objContrib (P : ImpParams) (beta : ℕ → ℝ) (i : ℕ) : Option (ℝ × (ℕ → ℝ)) :=
  some (lossContrib P beta i, gradContrib P beta i)

/-- The Reduction Result: loss and gradient aggregated over observations by
the parallel aggregator with `nT` requested workers. -/
def reductionResult (P : ImpParams) (beta : ℕ → ℝ) (nT : ℕ) : Option (ℝ × (ℕ → ℝ)) :=
  parallelAggregate P.n.toNat nT (objContrib P beta)

/-- The full objective handed to the optimizer driver: the Reduction Result
at the configured thread count. -/
def objFull (P : ImpParams) (beta : ℕ → ℝ) : Option (ℝ × (ℕ → ℝ)) :=
  reductionResult P beta P.n_threads.toNat

/-- Modelled from the spec: gradient-norm convergence tolerance. -/
def tolDefault : ℝ := 1 / 1000000

/-- Modelled from the spec: step size of the update rule. -/
def stepDefault : ℝ := 1

/-- Modelled from the spec: the iteration cap. -/
def maxIterDefault : ℕ := 100

/-- Read a flat buffer as a direction vector (missing entries are 0). -/
def betaOfList (l : List ℚ) : ℕ → ℝ := fun idx => ((l.getD idx 0 : ℚ) : ℝ)

/-- Modelled from the spec: the estimation core behind `C_imp_dim_red`.
Parameter-block construction validates eagerly; on failure no optimization
iteration runs.  Otherwise the optimizer driver minimizes the kernel-smoothed
objective from `beta_guess`. -/
def imp_dim_red (a : RawArgs) : CoreResult :=
  match mkImpParams a with
  | Except.error _ => ⟨betaOfList a.beta_guess, CoreStatus.invalidArgument, 0⟩
  | Except.ok P =>
    let r := drive (objFull P) (P.p.toNat * P.d.toNat) tolDefault stepDefault
               maxIterDefault (betaOfList a.beta_guess) none
    ⟨r.beta, statusOfOpt r.status, r.iters⟩

/-- The host runtime's opaque value type, as far as the header constrains
it: the wrapper's documented return value is `R_NilValue`; vector values
exist but are exchanged through buffers, not through the return value. -/
inductive SEXP where
  | R_NilValue : SEXP
  | realVector : List ℚ → SEXP
  | intVector : List Int → SEXP

/-- The caller-provided buffers of one `C_imp_dim_red` call: the four
`const` input buffers and the `beta_final` output buffer. -/
structure Mem where
  x : List ℚ
  beta_guess : List ℚ
  y : List ℚ
  treated : List Int
  beta_final : List ℝ

/-- Bundle one call's scalars and buffers into the core's argument record. -/
def rawOfCall (n p d kernel_spec : Int) (h0 h11 h12 h13 h14 gauss_cutoff : ℚ)
    (n_threads : Int) (mem : Mem) : RawArgs :=
  ⟨n, p, d, kernel_spec, n_threads, h0, h11, h12, h13, h14, gauss_cutoff,
   mem.x, mem.beta_guess, mem.y, mem.treated⟩

/-- The wrapper `C_imp_dim_red` of `src/C_gsl_imp_dr.h` lines 68-84: runs the
estimation core on the caller's buffers, writes the estimate in place into
the `beta_final` buffer (its last argument), and returns `R_NilValue` as the
header documents. -/
def C_imp_dim_red (n p d kernel_spec : Int) (h0 h11 h12 h13 h14 gauss_cutoff : ℚ)
    (n_threads : Int) (mem : Mem) : SEXP × Mem :=
  let r := imp_dim_red (rawOfCall n p d kernel_spec h0 h11 h12 h13 h14 gauss_cutoff
                          n_threads mem)
  (SEXP.R_NilValue,
   ⟨mem.x, mem.beta_guess, mem.y, mem.treated,
    (List.range (p.toNat * d.toNat)).map r.beta⟩)

/-- A concrete valid call: one untreated observation with response 0. -/
def exampleArgsOk : RawArgs := ⟨1, 1, 1, 1, 1, 1, 1, 1, 1, 1, 1, [0], [0], [0], [0]⟩

/-- A concrete invalid call: `n = 0`, `h0 = 0`, and a `treated` entry 2. -/
def exampleArgsBad : RawArgs := ⟨0, 1, 1, 1, 1, 0, 1, 1, 1, 1, 1, [0], [0], [0], [2]⟩

/-- The parameter block built from `exampleArgsOk`. -/
def exampleParams : ImpParams := ⟨1, 1, 1, 1, 1, [0], 0, 1, 1, 1, 1, 1, 1, [0], [0]⟩

/-- The buffers of the valid example call. -/
def exampleMem : Mem := ⟨[0], [0], [0], [0], []⟩

/-- The buffers of the invalid example call. -/
def exampleMemBad : Mem := ⟨[0], [0], [0], [2], []⟩

end

/-- C4: for the Gaussian kernel family (selected by `kernel_spec`), a
distance strictly beyond `gauss_cutoff` gives weight exactly 0, and
distance 0 gives the kernel's maximum value, 1. -/
theorem gaussian_kernel_cutoff_zero_and_max_at_zero (u h cutoff : ℝ)
    (hcut : 0 ≤ cutoff) :
    (cutoff < |u| → kernelEval gaussianSpecCode u h cutoff = 0) ∧
    kernelEval gaussianSpecCode 0 h cutoff = 1 ∧
    kernelEval gaussianSpecCode u h cutoff ≤ kernelEval gaussianSpecCode 0 h cutoff := by
  have hzero : kernelEval gaussianSpecCode 0 h cutoff = 1 := by
    rw [kernelEval, if_pos rfl, gaussKernel, if_neg (by simpa using not_lt.mpr hcut)]
    norm_num
  refine ⟨fun hu => ?_, hzero, ?_⟩
  · rw [kernelEval, if_pos rfl, gaussKernel, if_pos hu]
  · rw [hzero, kernelEval, if_pos rfl, gaussKernel]
    by_cases hu : cutoff < |u|
    · rw [if_pos hu]; norm_num
    · rw [if_neg hu]
      have h2 : -(u / h) ^ 2 / 2 ≤ 0 := by
        have := sq_nonneg (u / h); linarith
      simpa using Real.exp_le_one_iff.mpr h2

/-- Witness for C4 at the concrete input `u = 5`, `h = 1`, `cutoff = 2`. -/
theorem gaussian_kernel_cutoff_zero_and_max_at_zero_witness :
    (0 : ℝ) ≤ 2 ∧
    (((2 : ℝ) < |(5 : ℝ)| → kernelEval gaussianSpecCode 5 1 2 = 0) ∧
     kernelEval gaussianSpecCode 0 1 2 = 1 ∧
     kernelEval gaussianSpecCode 5 1 2 ≤ kernelEval gaussianSpecCode 0 1 2) :=
  ⟨by norm_num, gaussian_kernel_cutoff_zero_and_max_at_zero 5 1 2 (by norm_num)⟩

/-- C9: the parameter block `ImpParams` carries exactly the fields of the
spec's `EstimationParameters` data model plus one additional scalar `b0`:
pairing the forgetful map with the `b0` field is a bijection between
`ImpParams` and `EstimationParameters × ℚ`. -/
theorem impparams_carries_exactly_spec_fields_plus_b0 :
    Function.Bijective (fun ip : ImpParams => (toEstimationParameters ip, ip.b0)) := by
  constructor
  · intro a b hab
    cases a; cases b
    simp only [toEstimationParameters, Prod.mk.injEq, EstimationParameters.mk.injEq] at hab
    simp only [ImpParams.mk.injEq]
    tauto
  · rintro ⟨e, b⟩
    refine ⟨⟨e.n, e.p, e.d, e.n_threads, e.kernel_spec, e.treated, b,
             e.h0, e.h11, e.h12, e.h13, e.h14, e.gauss_cutoff, e.x, e.y⟩, ?_⟩
    cases e; rfl

/-- C1 (amended): `C_imp_dim_red` writes `beta_final` in place into the
caller-provided buffer passed as its last argument; its return value is
always `R_NilValue`, so neither an estimation result nor a status is
communicated through the return value. -/
theorem beta_written_in_place_return_nil (n p d kernel_spec : Int)
    (h0 h11 h12 h13 h14 gauss_cutoff : ℚ) (n_threads : Int) (mem : Mem) :
    C_imp_dim_red n p d kernel_spec h0 h11 h12 h13 h14 gauss_cutoff n_threads mem =
      (SEXP.R_NilValue,
       ⟨mem.x, mem.beta_guess, mem.y, mem.treated,
        (List.range (p.toNat * d.toNat)).map
          (imp_dim_red (rawOfCall n p d kernel_spec h0 h11 h12 h13 h14 gauss_cutoff
             n_threads mem)).beta⟩) := rfl

/-- C10: the input buffers `x`, `beta_guess`, `y`, `treated` (declared
`const` in the header) are left unchanged by `C_imp_dim_red`; of the
caller-visible buffers only `beta_final` is written. -/
theorem const_inputs_unchanged_only_beta_final_written (n p d kernel_spec : Int)
    (h0 h11 h12 h13 h14 gauss_cutoff : ℚ) (n_threads : Int) (mem : Mem) :
    (C_imp_dim_red n p d kernel_spec h0 h11 h12 h13 h14 gauss_cutoff n_threads mem).2.x
        = mem.x ∧
    (C_imp_dim_red n p d kernel_spec h0 h11 h12 h13 h14 gauss_cutoff n_threads mem).2.beta_guess
        = mem.beta_guess ∧
    (C_imp_dim_red n p d kernel_spec h0 h11 h12 h13 h14 gauss_cutoff n_threads mem).2.y
        = mem.y ∧
    (C_imp_dim_red n p d kernel_spec h0 h11 h12 h13 h14 gauss_cutoff n_threads mem).2.treated
        = mem.treated :=
  ⟨rfl, rfl, rfl, rfl⟩

/-- Any input the claim calls invalid falsifies the construction-time
validity check. -/
theorem badInput_not_valid (a : RawArgs) (h : badInput a) : ¬ validArgs a := by
  intro hv
  obtain ⟨hn, hp, hd, _, _, hx, hbg, hy, htl, hh0, hh11, hh12, hh13, hh14, _, hball⟩ := hv
  rcases h with h | h | h | h | h | h | h | h | h | h | h | h | h
  · exact absurd hn (not_lt.mpr h)
  · exact absurd hp (not_lt.mpr h)
  · exact absurd hd (not_lt.mpr h)
  · exact h hx
  · exact h hbg
  · exact h hy
  · exact h htl
  · exact absurd hh0 (not_lt.mpr h)
  · exact absurd hh11 (not_lt.mpr h)
  · exact absurd hh12 (not_lt.mpr h)
  · exact absurd hh13 (not_lt.mpr h)
  · exact absurd hh14 (not_lt.mpr h)
  · obtain ⟨t, ht, ht0, ht1⟩ := h
    rcases hball t ht with h' | h'
    · exact ht0 h'
    · exact ht1 h'

/-- C2: an input with a non-positive dimension, a mismatched buffer length,
a non-positive bandwidth, or a `treated` value outside {0,1} is rejected
with `InvalidArgument` eagerly at parameter-block construction; the core
runs zero optimization iterations and never silently reports success. -/
theorem invalid_input_rejected_eagerly (a : RawArgs) (h : badInput a) :
    mkImpParams a = Except.error CoreError.invalidArgument ∧
    (imp_dim_red a).status = CoreStatus.invalidArgument ∧
    (imp_dim_red a).iters = 0 ∧
    (imp_dim_red a).status ≠ CoreStatus.success := by
  have hmk : mkImpParams a = Except.error CoreError.invalidArgument := by
    rw [mkImpParams, if_neg (badInput_not_valid a h)]
  have hrun : imp_dim_red a = ⟨betaOfList a.beta_guess, CoreStatus.invalidArgument, 0⟩ := by
    rw [imp_dim_red, hmk]
  refine ⟨hmk, ?_, ?_, ?_⟩ <;> rw [hrun] <;> simp

/-- Witness for C2 at the concrete invalid input `exampleArgsBad`
(`n = 0`, `h0 = 0`, a `treated` entry equal to 2). -/
theorem invalid_input_rejected_eagerly_witness :
    badInput exampleArgsBad ∧
    (mkImpParams exampleArgsBad = Except.error CoreError.invalidArgument ∧
     (imp_dim_red exampleArgsBad).status = CoreStatus.invalidArgument ∧
     (imp_dim_red exampleArgsBad).iters = 0 ∧
     (imp_dim_red exampleArgsBad).status ≠ CoreStatus.success) :=
  ⟨by decide, invalid_input_rejected_eagerly exampleArgsBad (by decide)⟩

/-- Membership bounds for a unit-step index range. -/
theorem mem_range'_bounds {s len i : ℕ} (h : i ∈ List.range' s len) :
    s ≤ i ∧ i < s + len := by
  rcases List.mem_range'.mp h with ⟨j, hj, rfl⟩
  omega

/-- Converse membership for a unit-step index range. -/
theorem mem_range'_of_bounds {s len i : ℕ} (h1 : s ≤ i) (h2 : i < s + len) :
    i ∈ List.range' s len := by
  exact List.mem_range'.mpr ⟨i - s, by omega, by omega⟩

/-- A worker accumulation over indices whose contributions all succeed
returns the plain sum of those contributions. -/
theorem optSum_all_some {A : Type} [AddCommMonoid A] (f : ℕ → Option A) (g : ℕ → A) :
    ∀ l : List ℕ, (∀ i ∈ l, f i = some (g i)) → optSum f l = some (l.map g).sum := by
  intro l
  induction l with
  | nil => intro _; simp [optSum]
  | cons j t ih =>
    intro h
    rw [optSum, h j (List.mem_cons_self j t), ih fun i hi => h i (List.mem_cons_of_mem j hi)]
    simp

/-- A worker accumulation over indices containing a failed contribution
aborts with `none`. -/
theorem optSum_has_none {A : Type} [AddCommMonoid A] (f : ℕ → Option A) :
    ∀ l : List ℕ, (∃ i ∈ l, f i = none) → optSum f l = none := by
  intro l
  induction l with
  | nil => rintro ⟨i, hi, _⟩; simp at hi
  | cons j t ih =>
    rintro ⟨i, hi, hfi⟩
    rcases List.mem_cons.mp hi with rfl | hit
    · rw [optSum, hfi]; rfl
    · rw [optSum, ih ⟨i, hit, hfi⟩]
      cases f j <;> rfl

/-- The first block starts at observation 0. -/
theorem blockStart_zero (n T : ℕ) : blockStart n T 0 = 0 := by
  simp [blockStart]

/-- With a positive worker count, the block partition ends exactly at `n`. -/
theorem blockStart_last (n T : ℕ) (hT : 0 < T) : blockStart n T T = n := by
  rw [blockStart, Nat.mul_div_cancel_left n hT]

/-- Block starts are monotone in the worker index. -/
theorem blockStart_mono (n T : ℕ) {t t' : ℕ} (h : t ≤ t') :
    blockStart n T t ≤ blockStart n T t' :=
  Nat.div_le_div_right (Nat.mul_le_mul_right n h)

/-- Summing the per-block sums in thread-index order telescopes to the sum
over the covered prefix of observations. -/
theorem blocks_sum {A : Type} [AddCommMonoid A] (n T : ℕ) (g : ℕ → A) :
    ∀ K : ℕ,
      ((List.range K).map (fun t =>
        ((List.range' (blockStart n T t) (blockStart n T (t + 1) - blockStart n T t)).map g).sum)).sum
      = ((List.range' 0 (blockStart n T K)).map g).sum := by
  intro K
  induction K with
  | zero => simp [blockStart_zero]
  | succ K ih =>
    rw [List.range_succ, List.map_append, List.sum_append, ih]
    have hmono : blockStart n T K ≤ blockStart n T (K + 1) :=
      blockStart_mono n T (Nat.le_add_right K 1)
    have hsplit : blockStart n T (K + 1)
        = (blockStart n T (K + 1) - blockStart n T K) + blockStart n T K := by
      omega
    rw [hsplit, ← List.range'_append_1]
    simp

/-- When every observation's contribution succeeds, the parallel aggregator
returns the plain sequential sum, for every requested worker count. -/
theorem agg_all_some {A : Type} [AddCommMonoid A] (n nT : ℕ) (f : ℕ → Option A)
    (g : ℕ → A) (hf : ∀ i < n, f i = some (g i)) :
    parallelAggregate n nT f = some ((List.range n).map g).sum := by
  have hT : 0 < effThreads n nT := lt_of_lt_of_le Nat.one_pos (le_max_left 1 _)
  have hblock : ∀ t < effThreads n nT,
      blockAcc n (effThreads n nT) f t
        = some ((List.range' (blockStart n (effThreads n nT) t)
            (blockStart n (effThreads n nT) (t + 1) - blockStart n (effThreads n nT) t)).map g).sum := by
    intro t ht
    apply optSum_all_some
    intro i hi
    apply hf
    have hb := mem_range'_bounds hi
    have hup : blockStart n (effThreads n nT) t
        + (blockStart n (effThreads n nT) (t + 1) - blockStart n (effThreads n nT) t)
        = blockStart n (effThreads n nT) (t + 1) :=
      Nat.add_sub_cancel' (blockStart_mono n (effThreads n nT) (Nat.le_succ t))
    have hle : blockStart n (effThreads n nT) (t + 1) ≤ n := by
      have := blockStart_mono n (effThreads n nT) (Nat.succ_le_of_lt ht)
      rwa [blockStart_last n (effThreads n nT) hT] at this
    omega
  rw [parallelAggregate,
      optSum_all_some (blockAcc n (effThreads n nT) f)
        (fun t => ((List.range' (blockStart n (effThreads n nT) t)
            (blockStart n (effThreads n nT) (t + 1) - blockStart n (effThreads n nT) t)).map g).sum)
        (List.range (effThreads n nT))
        (fun t ht => hblock t (List.mem_range.mp ht)),
      blocks_sum n (effThreads n nT) g (effThreads n nT),
      blockStart_last n (effThreads n nT) hT, List.range_eq_range']

/-- Every observation below `n` lies in exactly one worker's block. -/
theorem exists_block (bs : ℕ → ℕ) (h0 : bs 0 = 0) :
    ∀ T i, i < bs T → ∃ t < T, bs t ≤ i ∧ i < bs (t + 1) := by
  intro T
  induction T with
  | zero => intro i hi; rw [h0] at hi; omega
  | succ T ih =>
    intro i hi
    by_cases hiT : i < bs T
    · rcases ih i hiT with ⟨t, ht, h1, h2⟩
      exact ⟨t, Nat.lt_succ_of_lt ht, h1, h2⟩
    · exact ⟨T, Nat.lt_succ_self T, Nat.le_of_not_lt hiT, hi⟩

/-- A failed contribution of any single observation aborts the whole
parallel aggregation: no poisoned partial sum is ever produced. -/
theorem agg_none {A : Type} [AddCommMonoid A] (n nT : ℕ) (f : ℕ → Option A) (i : ℕ)
    (hi : i < n) (hfi : f i = none) : parallelAggregate n nT f = none := by
  have hT : 0 < effThreads n nT := lt_of_lt_of_le Nat.one_pos (le_max_left 1 _)
  have hcov : i < blockStart n (effThreads n nT) (effThreads n nT) := by
    rwa [blockStart_last n (effThreads n nT) hT]
  rcases exists_block (blockStart n (effThreads n nT))
      (blockStart_zero n (effThreads n nT)) (effThreads n nT) i hcov with ⟨t, htT, h1, h2⟩
  rw [parallelAggregate]
  apply optSum_has_none
  refine ⟨t, List.mem_range.mpr htT, ?_⟩
  apply optSum_has_none
  refine ⟨i, ?_, hfi⟩
  apply mem_range'_of_bounds h1
  have hup : blockStart n (effThreads n nT) t
      + (blockStart n (effThreads n nT) (t + 1) - blockStart n (effThreads n nT) t)
      = blockStart n (effThreads n nT) (t + 1) :=
    Nat.add_sub_cancel' (blockStart_mono n (effThreads n nT) (Nat.le_succ t))
  omega

/-- C3: for fixed `beta` and a fixed parameter block, the Reduction Result
is a pure function of its inputs: evaluations at any thread counts in
{1, 2, 8} coincide exactly, hence in particular within 1e-9 relative
tolerance, with identical gradients. -/
theorem reduction_result_thread_invariant (P : ImpParams) (beta : ℕ → ℝ) (t1 t2 : ℕ)
    (h1 : t1 ∈ ({1, 2, 8} : Finset ℕ)) (h2 : t2 ∈ ({1, 2, 8} : Finset ℕ))
    (hv : ImpParamsValid P) :
    reductionResult P beta t1 = reductionResult P beta t2 ∧
    (∀ l1 g1 l2 g2, reductionResult P beta t1 = some (l1, g1) →
      reductionResult P beta t2 = some (l2, g2) →
      |l1 - l2| ≤ 1 / 1000000000 * |l1| ∧ g1 = g2) := by
  have key : ∀ t : ℕ, reductionResult P beta t
      = some ((List.range P.n.toNat).map
          (fun i => (lossContrib P beta i, gradContrib P beta i))).sum := by
    intro t
    exact agg_all_some P.n.toNat t (objContrib P beta) _ (fun i _ => rfl)
  constructor
  · rw [key t1, key t2]
  · intro l1 g1 l2 g2 ha hb
    rw [key t1] at ha
    rw [key t2] at hb
    rw [ha] at hb
    obtain ⟨hl, hg⟩ := Prod.mk.injEq .. ▸ Option.some.inj hb
    constructor
    · rw [hl, sub_self, abs_zero]
      positivity
    · exact hg

/-- Witness for C3 at the concrete valid block `exampleParams` with thread
counts 1 and 2. -/
theorem reduction_result_thread_invariant_witness :
    ((1 : ℕ) ∈ ({1, 2, 8} : Finset ℕ) ∧ (2 : ℕ) ∈ ({1, 2, 8} : Finset ℕ) ∧
     ImpParamsValid exampleParams) ∧
    (reductionResult exampleParams (betaOfList [0]) 1
        = reductionResult exampleParams (betaOfList [0]) 2 ∧
     (∀ l1 g1 l2 g2, reductionResult exampleParams (betaOfList [0]) 1 = some (l1, g1) →
       reductionResult exampleParams (betaOfList [0]) 2 = some (l2, g2) →
       |l1 - l2| ≤ 1 / 1000000000 * |l1| ∧ g1 = g2)) :=
  ⟨⟨by decide, by decide, by decide⟩,
   reduction_result_thread_invariant exampleParams (betaOfList [0]) 1 2
     (by decide) (by decide) (by decide)⟩

/-- C7: the effective worker count is clamped to `[1, n]`, and requesting
more threads than observations yields the same Reduction Result as
requesting exactly `n`. -/
theorem thread_count_clamped_and_excess_equal (P : ImpParams) (beta : ℕ → ℝ) (nT : ℕ)
    (hn : 0 < P.n) :
    (1 ≤ effThreads P.n.toNat nT ∧ effThreads P.n.toNat nT ≤ P.n.toNat) ∧
    (P.n.toNat < nT → reductionResult P beta nT = reductionResult P beta P.n.toNat) := by
  have hn' : 1 ≤ P.n.toNat := by omega
  constructor
  · constructor
    · exact le_max_left 1 _
    · exact max_le hn' (min_le_right nT P.n.toNat)
  · intro hlt
    have heq : effThreads P.n.toNat nT = effThreads P.n.toNat P.n.toNat := by
      rw [effThreads, effThreads, min_eq_right (le_of_lt hlt), min_self]
    rw [reductionResult, reductionResult, parallelAggregate, parallelAggregate, heq]

/-- Witness for C7 at the concrete block `exampleParams` with 5 requested
threads for a single observation. -/
theorem thread_count_clamped_and_excess_equal_witness :
    0 < exampleParams.n ∧
    ((1 ≤ effThreads exampleParams.n.toNat 5 ∧
      effThreads exampleParams.n.toNat 5 ≤ exampleParams.n.toNat) ∧
     (exampleParams.n.toNat < 5 →
       reductionResult exampleParams (betaOfList [0]) 5
         = reductionResult exampleParams (betaOfList [0]) exampleParams.n.toNat)) :=
  ⟨by decide, thread_count_clamped_and_excess_equal exampleParams (betaOfList [0]) 5 (by decide)⟩

/-- The best-iterate record is never empty once updated. -/
theorem updateBest_ne_none {α : Type} [LinearOrderedField α]
    (best : Option ((ℕ → α) × α)) (beta : ℕ → α) (l : α) :
    updateBest best beta l ≠ none := by
  rcases best with _ | ⟨b0, l0⟩
  · simp [updateBest]
  · rw [updateBest]
    by_cases hll : l < l0 <;> simp [hll]

/-- Invariant of the driver's best-iterate tracking: whenever the driver
stops at the iteration cap, the iterate it returns has a recorded objective
value no worse than the initial record and than every loss seen. -/
theorem drive_maxiter_aux {α : Type} [LinearOrderedField α]
    (obj : (ℕ → α) → Option (α × (ℕ → α))) (m : ℕ) (tol step : α) :
    ∀ (k : ℕ) (beta : ℕ → α) (best : Option ((ℕ → α) × α)),
      (∀ b0 l0, best = some (b0, l0) → ∃ g0, obj b0 = some (l0, g0)) →
      (drive obj m tol step k beta best).status = OptStatus.maxIterReached →
      (evals obj m tol step k beta = [] ∧ best = none ∧
        (drive obj m tol step k beta best).beta = beta) ∨
      (∃ l g, obj ((drive obj m tol step k beta best).beta) = some (l, g) ∧
        (∀ b0 l0, best = some (b0, l0) → l ≤ l0) ∧
        (∀ bl ∈ evals obj m tol step k beta, l ≤ bl.2)) := by
  intro k
  induction k with
  | zero =>
    intro beta best hinv _
    rcases best with _ | ⟨b0, l0⟩
    · exact Or.inl ⟨rfl, rfl, by rw [drive]; rfl⟩
    · rcases hinv b0 l0 rfl with ⟨g0, hg0⟩
      refine Or.inr ⟨l0, g0, ?_, ?_, ?_⟩
      · rw [drive]
        exact hg0
      · intro b0' l0' he
        cases Option.some.inj he
        exact le_refl l0
      · intro bl hbl
        simp [evals] at hbl
  | succ k ih =>
    intro beta best hinv hmax
    rcases hobj : obj beta with _ | ⟨l, g⟩
    · rw [drive] at hmax
      simp [hobj] at hmax
    · by_cases hgl : gradNorm2 m g ≤ tol
      · rw [drive] at hmax
        simp [hobj, hgl] at hmax
      · have hdr : drive obj m tol step (k + 1) beta best =
            ⟨(drive obj m tol step k (stepUpdate step beta g) (updateBest best beta l)).beta,
             (drive obj m tol step k (stepUpdate step beta g) (updateBest best beta l)).status,
             (drive obj m tol step k (stepUpdate step beta g) (updateBest best beta l)).iters + 1⟩ := by
          rw [drive]
          simp [hobj, hgl]
        have heval : evals obj m tol step (k + 1) beta =
            (beta, l) :: evals obj m tol step k (stepUpdate step beta g) := by
          rw [evals]
          simp [hobj, hgl]
        have hmax' : (drive obj m tol step k (stepUpdate step beta g)
            (updateBest best beta l)).status = OptStatus.maxIterReached := by
          rw [hdr] at hmax
          exact hmax
        have hinv' : ∀ b0 l0, updateBest best beta l = some (b0, l0) →
            ∃ g0, obj b0 = some (l0, g0) := by
          intro b0 l0 he
          rcases best with _ | ⟨b1, l1⟩
          · rw [updateBest] at he
            cases Option.some.inj he
            exact ⟨g, hobj⟩
          · rw [updateBest] at he
            by_cases hll : l < l1
            · rw [if_pos hll] at he
              cases Option.some.inj he
              exact ⟨g, hobj⟩
            · rw [if_neg hll] at he
              cases Option.some.inj he
              exact hinv _ _ rfl
        rcases ih (stepUpdate step beta g) (updateBest best beta l) hinv' hmax' with
          ⟨_, hbn, _⟩ | ⟨l', g', hog', hbest', hev'⟩
        · exact absurd hbn (updateBest_ne_none best beta l)
        · refine Or.inr ⟨l', g', ?_, ?_, ?_⟩
          · rw [hdr]
            exact hog'
          · intro b0 l0 he
            subst he
            by_cases hll : l < l0
            · have hb' : updateBest (some (b0, l0)) beta l = some (beta, l) := by
                rw [updateBest, if_pos hll]
              exact le_trans (hbest' beta l hb') (le_of_lt hll)
            · have hb' : updateBest (some (b0, l0)) beta l = some (b0, l0) := by
                rw [updateBest, if_neg hll]
              exact hbest' b0 l0 hb'
          · intro bl hbl
            rw [heval] at hbl
            rcases List.mem_cons.mp hbl with rfl | htail
            · show l' ≤ l
              rcases best with _ | ⟨b1, l1⟩
              · have hb' : updateBest none beta l = some (beta, l) := by
                  rw [updateBest]
                exact hbest' beta l hb'
              · by_cases hll : l < l1
                · have hb' : updateBest (some (b1, l1)) beta l = some (beta, l) := by
                    rw [updateBest, if_pos hll]
                  exact hbest' beta l hb'
                · have hb' : updateBest (some (b1, l1)) beta l = some (b1, l1) := by
                    rw [updateBest, if_neg hll]
                  exact le_trans (hbest' b1 l1 hb') (le_of_not_lt hll)
            · exact hev' bl htail

/-- C5: whenever the optimizer driver terminates at the iteration cap, the
reported state `maxIterReached` is a non-error status and the returned
iterate is the best-loss iterate seen: its recorded loss is no worse than
the loss of every iterate evaluated during the run. -/
theorem maxiter_returns_best_iterate_nonerror {α : Type} [LinearOrderedField α]
    (obj : (ℕ → α) → Option (α × (ℕ → α))) (m : ℕ) (tol step : α) (k : ℕ) (beta0 : ℕ → α)
    (hmax : (drive obj m tol step k beta0 none).status = OptStatus.maxIterReached) :
    optStatusIsError OptStatus.maxIterReached = false ∧
    ∀ bl ∈ evals obj m tol step k beta0, ∃ l g,
      obj ((drive obj m tol step k beta0 none).beta) = some (l, g) ∧ l ≤ bl.2 := by
  refine ⟨rfl, ?_⟩
  intro bl hbl
  rcases drive_maxiter_aux obj m tol step k beta0 none (by intro b0 l0 h; cases h) hmax with
    ⟨he, _, _⟩ | ⟨l, g, hog, _, hev⟩
  · rw [he] at hbl
    simp at hbl
  · exact ⟨l, g, hog, hev bl hbl⟩

/-- Witness for C5: a constant objective of gradient norm 1 with tolerance 0
exhausts a fuel of one iteration. -/
theorem maxiter_returns_best_iterate_nonerror_witness :
    (drive (fun _ : ℕ → ℚ => some ((1 : ℚ), fun _ : ℕ => (1 : ℚ))) 1 0 1 (0 + 1)
        (fun _ : ℕ => (0 : ℚ)) none).status = OptStatus.maxIterReached ∧
    (optStatusIsError OptStatus.maxIterReached = false ∧
     ∀ bl ∈ evals (fun _ : ℕ → ℚ => some ((1 : ℚ), fun _ : ℕ => (1 : ℚ))) 1 0 1 (0 + 1)
         (fun _ => 0), ∃ l g,
       (fun _ : ℕ → ℚ => some ((1 : ℚ), fun _ : ℕ => (1 : ℚ)))
           ((drive (fun _ : ℕ → ℚ => some ((1 : ℚ), fun _ : ℕ => (1 : ℚ))) 1 0 1 (0 + 1)
               (fun _ : ℕ => (0 : ℚ)) none).beta) = some (l, g) ∧ l ≤ bl.2) := by
  have hmax : (drive (fun _ : ℕ → ℚ => some ((1 : ℚ), fun _ : ℕ => (1 : ℚ))) 1 0 1 (0 + 1)
      (fun _ : ℕ => (0 : ℚ)) none).status = OptStatus.maxIterReached := by
    rw [drive]
    norm_num [gradNorm2, drive]
  exact ⟨hmax, maxiter_returns_best_iterate_nonerror _ 1 0 1 (0 + 1) (fun _ : ℕ => (0 : ℚ)) hmax⟩

/-- Any iterate the driver visits whose objective evaluation breaks down
forces the terminal state `failed`. -/
theorem visited_none_failed {α : Type} [LinearOrderedField α]
    (obj : (ℕ → α) → Option (α × (ℕ → α))) (m : ℕ) (tol step : α) :
    ∀ (k : ℕ) (beta : ℕ → α) (best : Option ((ℕ → α) × α)) (b : ℕ → α),
      b ∈ visited obj m tol step k beta → obj b = none →
      (drive obj m tol step k beta best).status = OptStatus.failed := by
  intro k
  induction k with
  | zero =>
    intro beta best b hb _
    simp [visited] at hb
  | succ k ih =>
    intro beta best b hb hnone
    rw [visited] at hb
    rcases List.mem_cons.mp hb with rfl | htail
    · rw [drive, hnone]
    · rcases hobj : obj beta with _ | ⟨l, g⟩
      · rw [hobj] at htail
        simp at htail
      · rw [hobj] at htail
        by_cases hgl : gradNorm2 m g ≤ tol
        · simp [hgl] at htail
        · simp only [hgl, if_false] at htail
          rw [drive, hobj]
          simp only [hgl, if_false]
          exact ih (stepUpdate step beta g) (updateBest best beta l) b htail hnone

/-- C6: a non-finite evaluation inside any worker aborts the whole parallel
aggregation (no poisoned partial sum is produced) and, when the driver
visits such an iterate, the failure is surfaced as the distinct `failed`
terminal state — an error status, never reported as convergence. -/
theorem worker_failure_propagates_to_driver {α : Type} [LinearOrderedField α]
    (contrib : (ℕ → α) → ℕ → Option (α × (ℕ → α))) (n nT m : ℕ) (tol step : α)
    (k : ℕ) (beta0 b : ℕ → α) (i : ℕ)
    (hb : b ∈ visited (fun beta => parallelAggregate n nT (contrib beta)) m tol step k beta0)
    (hi : i < n) (hc : contrib b i = none) :
    parallelAggregate n nT (contrib b) = none ∧
    (drive (fun beta => parallelAggregate n nT (contrib beta)) m tol step k beta0
        none).status = OptStatus.failed ∧
    optStatusIsError ((drive (fun beta => parallelAggregate n nT (contrib beta)) m tol step
        k beta0 none).status) = true ∧
    (drive (fun beta => parallelAggregate n nT (contrib beta)) m tol step k beta0
        none).status ≠ OptStatus.converged := by
  have hagg : parallelAggregate n nT (contrib b) = none := agg_none n nT (contrib b) i hi hc
  have hfail : (drive (fun beta => parallelAggregate n nT (contrib beta)) m tol step k beta0
      none).status = OptStatus.failed :=
    visited_none_failed (fun beta => parallelAggregate n nT (contrib beta)) m tol step
      k beta0 none b hb hagg
  refine ⟨hagg, hfail, ?_, ?_⟩
  · rw [hfail]
    rfl
  · rw [hfail]
    intro hcontra
    cases hcontra

/-- Witness for C6: a single observation whose contribution always breaks
down, one worker, the initial iterate itself. -/
theorem worker_failure_propagates_to_driver_witness :
    ((fun _ : ℕ → ℚ => (fun _ : ℕ => (0 : ℚ))) (fun _ : ℕ => (0 : ℚ)) ∈
        visited (fun beta : ℕ → ℚ =>
          parallelAggregate 1 1 ((fun _ _ => none : (ℕ → ℚ) → ℕ → Option (ℚ × (ℕ → ℚ))) beta))
          1 0 1 (0 + 1) (fun _ : ℕ => (0 : ℚ)) ∧
     (0 : ℕ) < 1 ∧
     (fun _ _ => none : (ℕ → ℚ) → ℕ → Option (ℚ × (ℕ → ℚ))) (fun _ : ℕ => (0 : ℚ)) 0 = none) ∧
    (parallelAggregate 1 1
        ((fun _ _ => none : (ℕ → ℚ) → ℕ → Option (ℚ × (ℕ → ℚ))) (fun _ : ℕ => (0 : ℚ))) = none ∧
     (drive (fun beta : ℕ → ℚ =>
         parallelAggregate 1 1 ((fun _ _ => none : (ℕ → ℚ) → ℕ → Option (ℚ × (ℕ → ℚ))) beta))
         1 0 1 (0 + 1) (fun _ : ℕ => (0 : ℚ)) none).status = OptStatus.failed ∧
     optStatusIsError ((drive (fun beta : ℕ → ℚ =>
         parallelAggregate 1 1 ((fun _ _ => none : (ℕ → ℚ) → ℕ → Option (ℚ × (ℕ → ℚ))) beta))
         1 0 1 (0 + 1) (fun _ : ℕ => (0 : ℚ)) none).status) = true ∧
     (drive (fun beta : ℕ → ℚ =>
         parallelAggregate 1 1 ((fun _ _ => none : (ℕ → ℚ) → ℕ → Option (ℚ × (ℕ → ℚ))) beta))
         1 0 1 (0 + 1) (fun _ : ℕ => (0 : ℚ)) none).status ≠ OptStatus.converged) := by
  have hb : (fun _ : ℕ → ℚ => (fun _ : ℕ => (0 : ℚ))) (fun _ : ℕ => (0 : ℚ)) ∈
      visited (fun beta : ℕ → ℚ =>
        parallelAggregate 1 1 ((fun _ _ => none : (ℕ → ℚ) → ℕ → Option (ℚ × (ℕ → ℚ))) beta))
        1 0 1 (0 + 1) (fun _ : ℕ => (0 : ℚ)) := by
    rw [visited]
    exact List.mem_cons_self _ _
  exact ⟨⟨hb, Nat.one_pos, rfl⟩,
    worker_failure_propagates_to_driver (fun _ _ => none) 1 1 1 0 1 (0 + 1)
      (fun _ : ℕ => (0 : ℚ)) ((fun _ : ℕ → ℚ => (fun _ : ℕ => (0 : ℚ))) (fun _ : ℕ => (0 : ℚ)))
      0 hb Nat.one_pos rfl⟩

/-- Projected squared distances only read the first `dd` projected
coordinates. -/
theorem dist2P_congr (P : ImpParams) (dd : ℕ) (pr1 pr2 : ℕ → ℕ → ℝ)
    (h : ∀ i k, k < dd → pr1 i k = pr2 i k) (i j : ℕ) :
    dist2P P dd pr1 i j = dist2P P dd pr2 i j := by
  rw [dist2P, dist2P]
  apply Finset.sum_congr rfl
  intro k hk
  rw [h i k (Finset.mem_range.mp hk), h j k (Finset.mem_range.mp hk)]

/-- Kernel weights only read the first `dd` projected coordinates. -/
theorem wP_congr (P : ImpParams) (hq : ℚ) (dd : ℕ) (pr1 pr2 : ℕ → ℕ → ℝ)
    (h : ∀ i k, k < dd → pr1 i k = pr2 i k) (i j : ℕ) :
    wP P hq dd pr1 i j = wP P hq dd pr2 i j := by
  rw [wP, wP, dist2P_congr P dd pr1 pr2 h i j]

/-- The treated weighted response sum only reads the first `dd` projected
coordinates. -/
theorem S1P_congr (P : ImpParams) (dd : ℕ) (pr1 pr2 : ℕ → ℕ → ℝ)
    (h : ∀ i k, k < dd → pr1 i k = pr2 i k) (i : ℕ) :
    S1P P dd pr1 i = S1P P dd pr2 i := by
  rw [S1P, S1P]
  apply Finset.sum_congr rfl
  intro j _
  rw [wP_congr P P.h11 dd pr1 pr2 h i j]

/-- The treated weight sum only reads the first `dd` projected coordinates. -/
theorem W1P_congr (P : ImpParams) (dd : ℕ) (pr1 pr2 : ℕ → ℕ → ℝ)
    (h : ∀ i k, k < dd → pr1 i k = pr2 i k) (i : ℕ) :
    W1P P dd pr1 i = W1P P dd pr2 i := by
  rw [W1P, W1P]
  congr 1
  apply Finset.sum_congr rfl
  intro j _
  rw [wP_congr P P.h11 dd pr1 pr2 h i j]

/-- The control weighted response sum only reads the first `dd` projected
coordinates. -/
theorem S0P_congr (P : ImpParams) (dd : ℕ) (pr1 pr2 : ℕ → ℕ → ℝ)
    (h : ∀ i k, k < dd → pr1 i k = pr2 i k) (i : ℕ) :
    S0P P dd pr1 i = S0P P dd pr2 i := by
  rw [S0P, S0P]
  apply Finset.sum_congr rfl
  intro j _
  rw [wP_congr P P.h12 dd pr1 pr2 h i j]

/-- The control weight sum only reads the first `dd` projected coordinates. -/
theorem W0P_congr (P : ImpParams) (dd : ℕ) (pr1 pr2 : ℕ → ℕ → ℝ)
    (h : ∀ i k, k < dd → pr1 i k = pr2 i k) (i : ℕ) :
    W0P P dd pr1 i = W0P P dd pr2 i := by
  rw [W0P, W0P]
  congr 1
  apply Finset.sum_congr rfl
  intro j _
  rw [wP_congr P P.h12 dd pr1 pr2 h i j]

/-- The loss only reads the first `dd` projected coordinates. -/
theorem lossOnProjected_congr (P : ImpParams) (dd : ℕ) (pr1 pr2 : ℕ → ℕ → ℝ)
    (h : ∀ i k, k < dd → pr1 i k = pr2 i k) :
    lossOnProjected P dd pr1 = lossOnProjected P dd pr2 := by
  rw [lossOnProjected, lossOnProjected]
  apply Finset.sum_congr rfl
  intro i _
  rw [m1P, m1P, m0P, m0P, S1P_congr P dd pr1 pr2 h i, W1P_congr P dd pr1 pr2 h i,
      S0P_congr P dd pr1 pr2 h i, W0P_congr P dd pr1 pr2 h i]

/-- Under the identity-equivalent direction with `d = p`, the projection
reproduces the raw covariates entrywise. -/
theorem proj_id (P : ImpParams) (hd : P.d = P.p) (i k : ℕ) (hk : k < P.p.toNat) :
    projMat P (idBeta P.p.toNat) i k = xE P i k := by
  have hp : 0 < P.p.toNat := Nat.pos_of_ne_zero (by omega)
  rw [projMat, hd]
  have hterm : ∀ j, idBeta P.p.toNat (j * P.p.toNat + k) = if j = k then 1 else 0 := by
    intro j
    rw [idBeta]
    have hdiv : (j * P.p.toNat + k) / P.p.toNat = j := by
      rw [Nat.mul_comm j P.p.toNat, Nat.mul_add_div hp, Nat.div_eq_of_lt hk, Nat.add_zero]
    have hmod : (j * P.p.toNat + k) % P.p.toNat = k := by
      rw [Nat.mul_comm j P.p.toNat, Nat.mul_add_mod, Nat.mod_eq_of_lt hk]
    rw [hdiv, hmod]
  calc ∑ j ∈ Finset.range P.p.toNat, xE P i j * idBeta P.p.toNat (j * P.p.toNat + k)
      = ∑ j ∈ Finset.range P.p.toNat, if j = k then xE P i j else 0 := by
        apply Finset.sum_congr rfl
        intro j _
        rw [hterm j]
        by_cases hjk : j = k
        · rw [if_pos hjk, if_pos hjk, mul_one]
        · rw [if_neg hjk, if_neg hjk, mul_zero]
    _ = xE P i k := by
        rw [Finset.sum_ite_eq' (Finset.range P.p.toNat) k (xE P i),
            if_pos (Finset.mem_range.mpr hk)]

/-- C8: for `d = p` and the identity-equivalent direction, the objective
builder's loss equals the loss computed directly on the raw covariates:
the projection step is a no-op under the identity direction. -/
theorem identity_direction_projection_noop (P : ImpParams) (hd : P.d = P.p) :
    objectiveLoss P (idBeta P.p.toNat) = lossRaw P := by
  rw [objectiveLoss, lossRaw, hd]
  exact lossOnProjected_congr P P.p.toNat (projMat P (idBeta P.p.toNat)) (xE P)
    (fun i k hk => proj_id P hd i k hk)

/-- Witness for C8 at the concrete block `exampleParams`, where `d = p`. -/
theorem identity_direction_projection_noop_witness :
    exampleParams.d = exampleParams.p ∧
    objectiveLoss exampleParams (idBeta exampleParams.p.toNat) = lossRaw exampleParams :=
  ⟨rfl, identity_direction_projection_noop exampleParams rfl⟩

/-- If the first objective evaluation already meets the gradient tolerance,
the driver converges in one iteration. -/
theorem drive_converges_first {α : Type} [LinearOrderedField α]
    (obj : (ℕ → α) → Option (α × (ℕ → α))) (m : ℕ) (tol step : α) (k : ℕ)
    (beta : ℕ → α) (best : Option ((ℕ → α) × α)) (l : α) (g : ℕ → α)
    (h : obj beta = some (l, g)) (hle : gradNorm2 m g ≤ tol) :
    drive obj m tol step (k + 1) beta best = ⟨beta, OptStatus.converged, 1⟩ := by
  rw [drive, h]
  simp [hle]

/-- On the concrete valid call `exampleArgsOk` the (empty) treated group
contributes a zero local average. -/
theorem example_m1_zero :
    m1P exampleParams exampleParams.d.toNat
      (projMat exampleParams (betaOfList exampleArgsOk.beta_guess)) 0 = 0 := by
  rw [m1P, S1P]
  rw [show exampleParams.n.toNat = 1 from rfl, Finset.sum_range_one,
      if_neg (by decide : ¬ tE exampleParams 0 = 1), zero_div]

/-- On the concrete valid call `exampleArgsOk` the control group's local
average is zero because the only response is zero. -/
theorem example_m0_zero :
    m0P exampleParams exampleParams.d.toNat
      (projMat exampleParams (betaOfList exampleArgsOk.beta_guess)) 0 = 0 := by
  have hy : yE exampleParams 0 = 0 := by norm_num [yE, exampleParams]
  rw [m0P, S0P]
  rw [show exampleParams.n.toNat = 1 from rfl, Finset.sum_range_one,
      if_pos (by decide : tE exampleParams 0 = 0), hy, mul_zero, zero_div]

/-- On the concrete valid call `exampleArgsOk` the gradient vanishes at the
initial direction. -/
theorem example_grad_zero :
    ∀ idx, gradContrib exampleParams (betaOfList exampleArgsOk.beta_guess) 0 idx = 0 := by
  intro idx
  simp only [gradContrib]
  rw [example_m1_zero, example_m0_zero]
  ring

/-- On the concrete valid call `exampleArgsOk` the first objective
evaluation succeeds. -/
theorem example_obj_eval :
    objFull exampleParams (betaOfList exampleArgsOk.beta_guess)
      = some (lossContrib exampleParams (betaOfList exampleArgsOk.beta_guess) 0,
              gradContrib exampleParams (betaOfList exampleArgsOk.beta_guess) 0) := by
  rw [objFull, reductionResult,
      show exampleParams.n_threads.toNat = 1 from rfl,
      show exampleParams.n.toNat = 1 from rfl,
      agg_all_some 1 1 (objContrib exampleParams (betaOfList exampleArgsOk.beta_guess))
        (fun i => (lossContrib exampleParams (betaOfList exampleArgsOk.beta_guess) i,
                   gradContrib exampleParams (betaOfList exampleArgsOk.beta_guess) i))
        (fun i _ => rfl)]
  rw [show List.range 1 = [0] from rfl]
  simp

/-- On the concrete valid call `exampleArgsOk` the driver converges at the
first iteration, so the core reports success. -/
theorem example_run_success : (imp_dim_red exampleArgsOk).status = CoreStatus.success := by
  have hmk : mkImpParams exampleArgsOk = Except.ok exampleParams := by
    rw [mkImpParams, if_pos (by decide : validArgs exampleArgsOk)]
    rfl
  have hgnorm : gradNorm2 (exampleParams.p.toNat * exampleParams.d.toNat)
      (gradContrib exampleParams (betaOfList exampleArgsOk.beta_guess) 0) ≤ tolDefault := by
    rw [gradNorm2, show exampleParams.p.toNat * exampleParams.d.toNat = 1 from rfl,
        Finset.sum_range_one, example_grad_zero 0]
    norm_num [tolDefault]
  rw [imp_dim_red, hmk]
  show statusOfOpt (drive (objFull exampleParams)
      (exampleParams.p.toNat * exampleParams.d.toNat) tolDefault stepDefault
      maxIterDefault (betaOfList exampleArgsOk.beta_guess) none).status = CoreStatus.success
  rw [show maxIterDefault = 99 + 1 from rfl,
      drive_converges_first (objFull exampleParams)
        (exampleParams.p.toNat * exampleParams.d.toNat) tolDefault stepDefault 99
        (betaOfList exampleArgsOk.beta_guess) none
        (lossContrib exampleParams (betaOfList exampleArgsOk.beta_guess) 0)
        (gradContrib exampleParams (betaOfList exampleArgsOk.beta_guess) 0)
        example_obj_eval hgnorm]
  rfl

/-- C1 (counterexample): the return value of `C_imp_dim_red` is not a
status indicator.  A call that succeeds and a call that fails with
`InvalidArgument` have distinct core statuses, yet the wrapper's return
value is the same `R_NilValue` for both, as the header documents. -/
theorem return_value_not_status_indicator :
    (imp_dim_red exampleArgsOk).status = CoreStatus.success ∧
    (imp_dim_red exampleArgsBad).status = CoreStatus.invalidArgument ∧
    (imp_dim_red exampleArgsOk).status ≠ (imp_dim_red exampleArgsBad).status ∧
    (C_imp_dim_red 1 1 1 1 1 1 1 1 1 1 1 exampleMem).1
      = (C_imp_dim_red 0 1 1 1 0 1 1 1 1 1 1 exampleMemBad).1 := by
  have hbad : (imp_dim_red exampleArgsBad).status = CoreStatus.invalidArgument := by
    rw [imp_dim_red, mkImpParams, if_neg (by decide : ¬ validArgs exampleArgsBad)]
  refine ⟨example_run_success, hbad, ?_, rfl⟩
  rw [example_run_success, hbad]
  intro h
  cases h
